import Mathlib

/-!
Shallow embedding of the `ToyVec` growable vector from
`src/ch07/toy-vec/src/lib.rs` and its companion iterator, together with
proofs of the specification's testable properties.

The Rust storage block `Box<[T]>` of size `capacity` is modelled as a
`List T` whose length is the capacity; every slot holds a live value of
`T` (default-initialized), matching the source.  Slot indexing in Rust
panics when out of bounds, so every operation that indexes the block is
given the type `Option _`: `none` is the panic outcome, `some` the normal
return.  The safety claims then prove the panic branch unreachable under
the length-capacity invariant.
-/

namespace ToyVecSpec

/-- The container: `elements` is the owned storage block (one entry per
allocated slot, so `elements.length` is the capacity) and `len` the count
of occupied leading slots.  The source declares the field as `Box<T>`, a
transcription slip for `Box<[T]>`: every method indexes it and takes its
`.len()`. -/
structure ToyVec (T : Type) where
  elements : List T
  len : Nat
deriving DecidableEq

variable {T : Type} [Inhabited T]

/-- `ToyVec::allocate_in_heap`: a block of `size` slots, each holding
`T`'s default value (`repeat_with(Default::default)` limited to `size`
items; the source spells the limiting adapter `.task(size)`, a
transcription slip for `.take(size)`). -/
def allocate_in_heap (T : Type) [Inhabited T] (size : Nat) : List T :=
  List.replicate size default

/-- `ToyVec::with_capacity`. -/
def ToyVec.with_capacity (T : Type) [Inhabited T] (capacity : Nat) : ToyVec T :=
  { elements := allocate_in_heap T capacity, len := 0 }

/-- `ToyVec::new`. -/
def ToyVec.new (T : Type) [Inhabited T] : ToyVec T :=
  ToyVec.with_capacity T 0

/-- `ToyVec::capacity`: the size of the storage block. -/
def ToyVec.capacity (v : ToyVec T) : Nat :=
  v.elements.length

/-- Rust slot write `self.elements[i] = x`: panics (`none`) when `i` is
out of the block's bounds. -/
def setSlot (l : List T) (i : Nat) (x : T) : Option (List T) :=
  if i < l.length then some (l.set i x) else none

/-- Rust slot read `&self.elements[i]`: panics (`none`) when `i` is out
of the block's bounds. -/
def getSlot (l : List T) (i : Nat) : Option T :=
  l[i]?

/-- The element-moving loop in `ToyVec::grow`:
`for (i, elem) in old_elements.into_vec().into_iter().enumerate()`
writing `self.elements[i] = elem` (the source spells the index adapter
`.enumearate()`, a transcription slip for `.enumerate()`). -/
def moveLoop : List (Nat × T) → List T → Option (List T)
  | [], acc => some acc
  | (i, e) :: rest, acc =>
    if i < acc.length then moveLoop rest (acc.set i e) else none

/-- `ToyVec::grow`: capacity 0 grows to 1, otherwise the capacity
doubles; a brand-new block is allocated and every existing element is
moved to the same index of the new block. -/
def ToyVec.grow (v : ToyVec T) : Option (ToyVec T) :=
  if v.capacity = 0 then
    some { v with elements := allocate_in_heap T 1 }
  else
    (moveLoop v.elements.enum (allocate_in_heap T (v.capacity * 2))).map
      (fun es => { v with elements := es })

/-- `ToyVec::push`: grow when full, then write into slot `len` and
increment `len`. -/
def ToyVec.push (v : ToyVec T) (element : T) : Option (ToyVec T) :=
  (if v.len = v.capacity then v.grow else some v).bind fun w =>
    (setSlot w.elements w.len element).map fun es =>
      { elements := es, len := w.len + 1 }

/-- `ToyVec::get`: `some` of the element when the index is below `len`,
`none` (the inner `Option`) otherwise.  The outer `Option` is the panic
monad of the slot read. -/
def ToyVec.get (v : ToyVec T) (index : Nat) : Option (Option T) :=
  if index < v.len then (getSlot v.elements index).map some
  else some none

/-- `ToyVec::get_or`: `self.get(index).unwrap_or(default)`. -/
def ToyVec.get_or (v : ToyVec T) (index : Nat) (dflt : T) : Option T :=
  (v.get index).map fun o => o.getD dflt

/-- `ToyVec::pop`: `none` result when empty, otherwise decrement `len`
and `mem::replace` slot `len` with the default value, returning the old
occupant. -/
def ToyVec.pop (v : ToyVec T) : Option (Option T × ToyVec T) :=
  if v.len = 0 then some (none, v)
  else
    (getSlot v.elements (v.len - 1)).bind fun elem =>
      (setSlot v.elements (v.len - 1) default).map fun es =>
        (some elem, { elements := es, len := v.len - 1 })

/-- A sequence of `push` calls, threading the panic monad. -/
def pushList (v : ToyVec T) : List T → Option (ToyVec T)
  | [] => some v
  | x :: xs => (v.push x).bind fun w => pushList w xs

/-- The invariant stated in the specification: `0 ≤ length ≤ storage.size`. -/
def ToyVec.inv (v : ToyVec T) : Prop :=
  v.len ≤ v.capacity

instance (v : ToyVec T) : Decidable v.inv := by
  unfold ToyVec.inv; infer_instance

/-- The `Iter` struct: a view of the container's storage block, its
length at capture time, and a position counter. -/
structure Iter (T : Type) where
  elements : List T
  len : Nat
  pos : Nat
deriving DecidableEq

/-- Modelled from the spec: the source declares `Iter` but its
constructor (`ToyVec::iter`) is absent from the file.  "captures a
reference to the container's storage and its length at this instant;
position = 0". -/
def Iter.create (v : ToyVec T) : Iter T :=
  { elements := v.elements, len := v.len, pos := 0 }

/-- Modelled from the spec: the source declares `Iter` but its
`Iterator::next` implementation is absent from the file.  "if
`position < captured_length`, returns a reference to the element at
`position` and advances `position` by 1; otherwise signals exhausted and
leaves state unchanged". -/
def Iter.next (it : Iter T) : Option T × Iter T :=
  if it.pos < it.len then (it.elements[it.pos]?, { it with pos := it.pos + 1 })
  else (none, it)

/-- `n` successive `next` calls, keeping only the final cursor state. -/
def Iter.nextN (it : Iter T) : Nat → Iter T
  | 0 => it
  | n + 1 => (it.next.2).nextN n

/-! ### Basic lemmas about the storage block -/

theorem allocate_length (size : Nat) : (allocate_in_heap T size).length = size := by
  simp [allocate_in_heap]

theorem allocate_getElem (size i : Nat) (hi : i < size) :
    (allocate_in_heap T size)[i]? = some (default : T) := by
  simp [allocate_in_heap, List.getElem?_replicate, hi]

omit [Inhabited T] in
/-- Pointwise description of the grow loop: running it on the pairs
`enumFrom k xs` over a block `acc` large enough succeeds and overwrites
exactly the slots `k ≤ j < k + xs.length` with the elements of `xs`. -/
theorem moveLoop_enumFrom (xs : List T) : ∀ (k : Nat) (acc : List T),
    k + xs.length ≤ acc.length →
    ∃ res, moveLoop (List.enumFrom k xs) acc = some res ∧
      res.length = acc.length ∧
      ∀ j, res[j]? = if k ≤ j ∧ j < k + xs.length then xs[j - k]? else acc[j]? := by
  induction xs with
  | nil =>
    intro k acc _
    refine ⟨acc, rfl, rfl, fun j => ?_⟩
    rw [if_neg (by simp only [List.length_nil]; omega)]
  | cons x xs ih =>
    intro k acc h
    simp only [List.length_cons] at h
    have hk : k < acc.length := by omega
    obtain ⟨res, hres, hrlen, hget⟩ :=
      ih (k + 1) (acc.set k x) (by rw [List.length_set]; omega)
    refine ⟨res, ?_, by rw [hrlen, List.length_set], fun j => ?_⟩
    · show moveLoop (List.enumFrom k (x :: xs)) acc = some res
      rw [List.enumFrom, moveLoop, if_pos hk]
      exact hres
    · rw [hget j]
      by_cases h1 : k + 1 ≤ j ∧ j < k + 1 + xs.length
      · rw [if_pos h1, if_pos (by simp only [List.length_cons]; omega)]
        have hjk : j - k = (j - (k + 1)) + 1 := by omega
        rw [hjk, List.getElem?_cons_succ]
      · rw [if_neg h1]
        by_cases h2 : j = k
        · subst h2
          rw [if_pos ⟨Nat.le_refl j, by simp only [List.length_cons]; omega⟩]
          rw [List.getElem?_set, if_pos rfl, if_pos hk, Nat.sub_self,
            List.getElem?_cons_zero]
        · rw [List.getElem?_set_ne (fun hh => h2 hh.symm),
            if_neg (by simp only [List.length_cons]; omega)]

/-- Behaviour of `ToyVec::grow`: it never panics, leaves `len` alone,
takes the capacity from 0 to 1 or doubles it, and keeps every slot below
the old capacity intact (element previously at index `j` is at index `j`
of the new block). -/
theorem grow_spec (v : ToyVec T) :
    ∃ w, v.grow = some w ∧ w.len = v.len ∧
      w.capacity = (if v.capacity = 0 then 1 else v.capacity * 2) ∧
      ∀ j, j < v.capacity → w.elements[j]? = v.elements[j]? := by
  by_cases hc : v.capacity = 0
  · refine ⟨{ v with elements := allocate_in_heap T 1 }, ?_, rfl, ?_, ?_⟩
    · rw [ToyVec.grow, if_pos hc]
    · show (allocate_in_heap T 1).length = _
      rw [allocate_length, if_pos hc]
    · intro j hj
      rw [hc] at hj
      exact absurd hj (by omega)
  · obtain ⟨res, hres, hrlen, hget⟩ :=
      moveLoop_enumFrom v.elements 0 (allocate_in_heap T (v.capacity * 2))
        (by
          rw [allocate_length, Nat.zero_add]
          show v.capacity ≤ v.capacity * 2
          omega)
    refine ⟨{ v with elements := res }, ?_, rfl, ?_, fun j hj => ?_⟩
    · rw [ToyVec.grow, if_neg hc]
      show (moveLoop (List.enumFrom 0 v.elements) _).map _ = _
      rw [hres]
      rfl
    · show res.length = _
      rw [hrlen, allocate_length, if_neg hc]
    · rw [hget j, if_pos ⟨Nat.zero_le j, by rw [Nat.zero_add]; exact hj⟩,
        Nat.sub_zero]

/-- Behaviour of `ToyVec::push` on a container satisfying the invariant:
it never panics, increments `len`, keeps the invariant, preserves every
previously occupied slot, and stores the new element in slot `len`. -/
theorem push_spec (v : ToyVec T) (hv : v.inv) (x : T) :
    ∃ w, v.push x = some w ∧ w.len = v.len + 1 ∧ w.inv ∧
      (∀ j, j < v.len → w.elements[j]? = v.elements[j]?) ∧
      w.elements[v.len]? = some x := by
  by_cases hfull : v.len = v.capacity
  · obtain ⟨g, hg, hglen, hgcap, hgget⟩ := grow_spec v
    have hlt : g.len < g.capacity := by
      rw [hglen, hgcap, hfull]
      split <;> omega
    have hset : setSlot g.elements g.len x = some (g.elements.set g.len x) := by
      rw [setSlot, if_pos (show g.len < g.elements.length from hlt)]
    refine ⟨{ elements := g.elements.set g.len x, len := g.len + 1 }, ?_, ?_, ?_, ?_, ?_⟩
    · rw [ToyVec.push, if_pos hfull, hg]
      show (setSlot g.elements g.len x).map _ = _
      rw [hset]
      rfl
    · rw [hglen]
    · show g.len + 1 ≤ (g.elements.set g.len x).length
      rw [List.length_set]
      exact hlt
    · intro j hj
      show (g.elements.set g.len x)[j]? = _
      rw [List.getElem?_set_ne (by omega : g.len ≠ j), hgget j (by omega)]
    · show (g.elements.set g.len x)[v.len]? = some x
      rw [← hglen, List.getElem?_set, if_pos rfl,
        if_pos (show g.len < g.elements.length from hlt)]
  · have hlt : v.len < v.capacity := Nat.lt_of_le_of_ne hv hfull
    have hset : setSlot v.elements v.len x = some (v.elements.set v.len x) := by
      rw [setSlot, if_pos (show v.len < v.elements.length from hlt)]
    refine ⟨{ elements := v.elements.set v.len x, len := v.len + 1 }, ?_, rfl, ?_, ?_, ?_⟩
    · rw [ToyVec.push, if_neg hfull]
      show (setSlot v.elements v.len x).map _ = _
      rw [hset]
      rfl
    · show v.len + 1 ≤ (v.elements.set v.len x).length
      rw [List.length_set]
      exact hlt
    · intro j hj
      show (v.elements.set v.len x)[j]? = _
      rw [List.getElem?_set_ne (by omega : v.len ≠ j)]
    · show (v.elements.set v.len x)[v.len]? = some x
      rw [List.getElem?_set, if_pos rfl,
        if_pos (show v.len < v.elements.length from hlt)]

/-- Behaviour of a whole sequence of `push` calls. -/
theorem pushList_spec (xs : List T) : ∀ (v : ToyVec T), v.inv →
    ∃ w, pushList v xs = some w ∧ w.len = v.len + xs.length ∧ w.inv ∧
      (∀ j, j < v.len → w.elements[j]? = v.elements[j]?) ∧
      (∀ i, i < xs.length → w.elements[v.len + i]? = xs[i]?) := by
  induction xs with
  | nil =>
    intro v hv
    exact ⟨v, rfl, by simp, hv, fun j _ => rfl, fun i hi => absurd hi (by simp)⟩
  | cons x xs ih =>
    intro v hv
    obtain ⟨v1, hv1, hv1len, hv1inv, hv1keep, hv1new⟩ := push_spec v hv x
    obtain ⟨w, hw, hwlen, hwinv, hwkeep, hwnew⟩ := ih v1 hv1inv
    refine ⟨w, ?_, ?_, hwinv, fun j hj => ?_, fun i hi => ?_⟩
    · rw [pushList, hv1, Option.some_bind, hw]
    · rw [hwlen, hv1len, List.length_cons]
      omega
    · rw [hwkeep j (by omega), hv1keep j hj]
    · cases i with
      | zero =>
        rw [Nat.add_zero, List.getElem?_cons_zero, hwkeep v.len (by omega), hv1new]
      | succ i =>
        have hshift : v.len + (i + 1) = v1.len + i := by omega
        rw [hshift, List.getElem?_cons_succ,
          hwnew i (by simp only [List.length_cons] at hi; omega)]

/-! ### Constructor lemmas -/

theorem with_capacity_len (n : Nat) : (ToyVec.with_capacity T n).len = 0 := rfl

theorem with_capacity_capacity (n : Nat) : (ToyVec.with_capacity T n).capacity = n :=
  allocate_length n

theorem with_capacity_inv (n : Nat) : (ToyVec.with_capacity T n).inv := by
  rw [ToyVec.inv, with_capacity_len, with_capacity_capacity]
  exact Nat.zero_le n

theorem new_len : (ToyVec.new T).len = 0 := rfl

theorem new_capacity : (ToyVec.new T).capacity = 0 :=
  with_capacity_capacity 0

theorem new_inv : (ToyVec.new T).inv :=
  with_capacity_inv 0

/-! ### Pop lemmas -/

theorem pop_empty (v : ToyVec T) (h : v.len = 0) : v.pop = some (none, v) := by
  rw [ToyVec.pop, if_pos h]

/-- Behaviour of `ToyVec::pop` on a non-empty container satisfying the
invariant: no panic, the occupant of slot `len - 1` is returned, `len`
is decremented, and that slot now holds the default value. -/
theorem pop_spec (v : ToyVec T) (hv : v.inv) (h : 0 < v.len) :
    ∃ x, v.elements[v.len - 1]? = some x ∧
      v.pop = some (some x,
        { elements := v.elements.set (v.len - 1) default, len := v.len - 1 }) := by
  have hlt : v.len - 1 < v.elements.length := by
    have hcap : v.len ≤ v.elements.length := hv
    omega
  refine ⟨v.elements[v.len - 1], List.getElem?_eq_getElem hlt, ?_⟩
  rw [ToyVec.pop, if_neg (by omega)]
  show (getSlot v.elements (v.len - 1)).bind _ = _
  rw [getSlot, List.getElem?_eq_getElem hlt]
  show (setSlot v.elements (v.len - 1) default).map _ = _
  rw [setSlot, if_pos hlt]
  rfl

theorem pop_inv (v : ToyVec T) (hv : v.inv) (r : Option T) (w : ToyVec T)
    (hpop : v.pop = some (r, w)) : w.inv := by
  by_cases h : v.len = 0
  · rw [pop_empty v h, Option.some.injEq, Prod.mk.injEq] at hpop
    rw [← hpop.2]
    exact hv
  · obtain ⟨x, _, hp⟩ := pop_spec v hv (by omega)
    rw [hp, Option.some.injEq, Prod.mk.injEq] at hpop
    rw [← hpop.2]
    show v.len - 1 ≤ (v.elements.set (v.len - 1) default).length
    rw [List.length_set]
    have hcap : v.len ≤ v.elements.length := hv
    omega

/-- Containers reachable from the constructors by `push` and `pop`
calls that do not panic. -/
inductive Reachable : ToyVec T → Prop where
  | new : Reachable (ToyVec.new T)
  | with_capacity (n : Nat) : Reachable (ToyVec.with_capacity T n)
  | push (v : ToyVec T) (x : T) (w : ToyVec T) :
      Reachable v → v.push x = some w → Reachable w
  | pop (v : ToyVec T) (r : Option T) (w : ToyVec T) :
      Reachable v → v.pop = some (r, w) → Reachable w

/-- Every reachable container satisfies `0 ≤ length ≤ capacity`. -/
theorem reachable_inv (v : ToyVec T) (hv : Reachable v) : v.inv := by
  induction hv with
  | new => exact new_inv
  | with_capacity n => exact with_capacity_inv n
  | push v x w _ hpush ih =>
    obtain ⟨w', hw', _, hinv, _, _⟩ := push_spec v ih x
    rw [hw', Option.some.injEq] at hpush
    rw [← hpush]
    exact hinv
  | pop v r w _ hpop ih => exact pop_inv v ih r w hpop

/-! ### Iterator lemmas -/

omit [Inhabited T] in
/-- After `k` calls to `next`, the cursor's storage view and captured
length are unchanged and its position is `min (pos + k) len`. -/
theorem nextN_eq (k : Nat) : ∀ it : Iter T, it.pos ≤ it.len →
    it.nextN k = ⟨it.elements, it.len, min (it.pos + k) it.len⟩ := by
  induction k with
  | zero =>
    intro it h
    rw [show min (it.pos + 0) it.len = it.pos by omega]
    rfl
  | succ k ih =>
    intro it h
    show (it.next.2).nextN k = _
    by_cases hlt : it.pos < it.len
    · rw [Iter.next, if_pos hlt]
      show ({ it with pos := it.pos + 1 } : Iter T).nextN k = _
      rw [ih { it with pos := it.pos + 1 } (by exact hlt)]
      show (⟨it.elements, it.len, min (it.pos + 1 + k) it.len⟩ : Iter T) = _
      rw [show it.pos + 1 + k = it.pos + (k + 1) by omega]
    · rw [Iter.next, if_neg hlt]
      show it.nextN k = _
      rw [ih it h]
      rw [show min (it.pos + k) it.len = min (it.pos + (k + 1)) it.len by omega]

omit [Inhabited T] in
/-- A cursor fresh from `create` sits at position `min k len` after `k`
calls to `next`, still viewing the container's storage and length. -/
theorem create_nextN (v : ToyVec T) (k : Nat) :
    (Iter.create v).nextN k = ⟨v.elements, v.len, min k v.len⟩ := by
  rw [nextN_eq k (Iter.create v) (Nat.zero_le v.len)]
  show (⟨v.elements, v.len, min (0 + k) v.len⟩ : Iter T) = _
  rw [Nat.zero_add]

/-! ### The claims -/

/-- C1: after any sequence of appends into a fresh container, the length
is the number of appends and `get i` returns the `i`-th appended value
for every `i` below the length — append order and index identity survive
every growth reallocation. -/
theorem claim_C1 (xs : List T) (v : ToyVec T)
    (hpush : pushList (ToyVec.new T) xs = some v) (i : Nat) (hi : i < xs.length) :
    v.len = xs.length ∧ v.get i = some (xs[i]?) := by
  obtain ⟨w, hw, hwlen, _, _, hwnew⟩ := pushList_spec xs (ToyVec.new T) new_inv
  rw [hpush, Option.some.injEq] at hw
  rw [hw]
  have hlen : w.len = xs.length := by rw [hwlen, new_len, Nat.zero_add]
  refine ⟨hlen, ?_⟩
  rw [ToyVec.get, if_pos (by omega), getSlot]
  have hget := hwnew i hi
  rw [new_len, Nat.zero_add] at hget
  rw [hget, List.getElem?_eq_getElem hi]
  rfl

theorem claim_C1_witness :
    (⟨[7, 8, 9, 0], 3⟩ : ToyVec Nat).len = [7, 8, 9].length ∧
    (⟨[7, 8, 9, 0], 3⟩ : ToyVec Nat).get 1 = some ([7, 8, 9][1]?) :=
  claim_C1 [7, 8, 9] ⟨[7, 8, 9, 0], 3⟩ (by decide) 1 (by decide)

/-- Unfolding lemma: a `push` that returns `some` prepends to a
`pushList` run. -/
theorem pushList_cons (v : ToyVec T) (x : T) (w : ToyVec T)
    (hx : v.push x = some w) (xs : List T) :
    pushList v (x :: xs) = pushList w xs := by
  rw [pushList, hx]
  rfl

theorem pushes1 (a : T) :
    pushList (ToyVec.new T) [a] = some ⟨[a], 1⟩ := by
  rw [pushList_cons (ToyVec.new T) a ⟨[a], 1⟩ rfl]
  rfl

theorem pushes2 (a b : T) :
    pushList (ToyVec.new T) [a, b] = some ⟨[a, b], 2⟩ := by
  rw [pushList_cons (ToyVec.new T) a ⟨[a], 1⟩ rfl,
    pushList_cons ⟨[a], 1⟩ b ⟨[a, b], 2⟩ rfl]
  rfl

theorem pushes3 (a b c : T) :
    pushList (ToyVec.new T) [a, b, c] = some ⟨[a, b, c, default], 3⟩ := by
  rw [pushList_cons (ToyVec.new T) a ⟨[a], 1⟩ rfl,
    pushList_cons ⟨[a], 1⟩ b ⟨[a, b], 2⟩ rfl,
    pushList_cons ⟨[a, b], 2⟩ c ⟨[a, b, c, default], 3⟩ rfl]
  rfl

theorem pushes4 (a b c d : T) :
    pushList (ToyVec.new T) [a, b, c, d] = some ⟨[a, b, c, d], 4⟩ := by
  rw [pushList_cons (ToyVec.new T) a ⟨[a], 1⟩ rfl,
    pushList_cons ⟨[a], 1⟩ b ⟨[a, b], 2⟩ rfl,
    pushList_cons ⟨[a, b], 2⟩ c ⟨[a, b, c, default], 3⟩ rfl,
    pushList_cons ⟨[a, b, c, default], 3⟩ d ⟨[a, b, c, d], 4⟩ rfl]
  rfl

theorem pushes5 (a b c d e : T) :
    pushList (ToyVec.new T) [a, b, c, d, e] =
      some ⟨[a, b, c, d, e, default, default, default], 5⟩ := by
  rw [pushList_cons (ToyVec.new T) a ⟨[a], 1⟩ rfl,
    pushList_cons ⟨[a], 1⟩ b ⟨[a, b], 2⟩ rfl,
    pushList_cons ⟨[a, b], 2⟩ c ⟨[a, b, c, default], 3⟩ rfl,
    pushList_cons ⟨[a, b, c, default], 3⟩ d ⟨[a, b, c, d], 4⟩ rfl,
    pushList_cons ⟨[a, b, c, d], 4⟩ e ⟨[a, b, c, d, e, default, default, default], 5⟩ rfl]
  rfl

/-- C2: growth is triggered only from a full `push`; capacity 0 grows to
1 and any other capacity doubles, each element moving to the same index
of the brand-new block; consequently five appends into a fresh container
pass through capacities 1, 2, 4, 4, 8, end with length 5, and `get`
returns the five values in insertion order. -/
theorem claim_C2 (a b c d e : T) :
    (∀ v : ToyVec T, ∃ w, v.grow = some w ∧
        w.capacity = (if v.capacity = 0 then 1 else v.capacity * 2) ∧
        w.len = v.len ∧
        ∀ j, j < v.capacity → w.elements[j]? = v.elements[j]?) ∧
    (pushList (ToyVec.new T) [a]).map ToyVec.capacity = some 1 ∧
    (pushList (ToyVec.new T) [a, b]).map ToyVec.capacity = some 2 ∧
    (pushList (ToyVec.new T) [a, b, c]).map ToyVec.capacity = some 4 ∧
    (pushList (ToyVec.new T) [a, b, c, d]).map ToyVec.capacity = some 4 ∧
    (pushList (ToyVec.new T) [a, b, c, d, e]).map ToyVec.capacity = some 8 ∧
    (pushList (ToyVec.new T) [a, b, c, d, e]).map ToyVec.len = some 5 ∧
    (pushList (ToyVec.new T) [a, b, c, d, e]).bind (fun v => v.get 0) = some (some a) ∧
    (pushList (ToyVec.new T) [a, b, c, d, e]).bind (fun v => v.get 1) = some (some b) ∧
    (pushList (ToyVec.new T) [a, b, c, d, e]).bind (fun v => v.get 2) = some (some c) ∧
    (pushList (ToyVec.new T) [a, b, c, d, e]).bind (fun v => v.get 3) = some (some d) ∧
    (pushList (ToyVec.new T) [a, b, c, d, e]).bind (fun v => v.get 4) = some (some e) := by
  refine ⟨fun v => ?_, by rw [pushes1]; rfl, by rw [pushes2]; rfl, by rw [pushes3]; rfl,
    by rw [pushes4]; rfl, by rw [pushes5]; rfl, by rw [pushes5]; rfl, by rw [pushes5]; rfl,
    by rw [pushes5]; rfl, by rw [pushes5]; rfl, by rw [pushes5]; rfl, by rw [pushes5]; rfl⟩
  obtain ⟨w, hw, hlen, hcap, hget⟩ := grow_spec v
  exact ⟨w, hw, hcap, hlen, hget⟩

theorem claim_C2_witness :
    (pushList (ToyVec.new Nat) [1, 2, 3, 4, 5]).map ToyVec.capacity = some 8 :=
  (claim_C2 1 2 3 4 5).2.2.2.2.2.1

/-- C3: k appends into a fresh container give length k, and every
container reachable by any sequence of operations satisfies
`0 ≤ length ≤ capacity`. -/
theorem claim_C3 (v : ToyVec T) (hv : Reachable v)
    (xs : List T) (w : ToyVec T) (hw : pushList (ToyVec.new T) xs = some w) :
    v.len ≤ v.capacity ∧ w.len = xs.length := by
  obtain ⟨w', hw', hwlen, _, _, _⟩ := pushList_spec xs (ToyVec.new T) new_inv
  rw [hw', Option.some.injEq] at hw
  subst hw
  exact ⟨reachable_inv v hv, by rw [hwlen, new_len, Nat.zero_add]⟩

theorem claim_C3_witness :
    (ToyVec.new Nat).len ≤ (ToyVec.new Nat).capacity ∧
    (⟨[4, 5], 2⟩ : ToyVec Nat).len = [4, 5].length :=
  claim_C3 (ToyVec.new Nat) Reachable.new [4, 5] ⟨[4, 5], 2⟩ (by decide)

/-- C4: `pop` on an empty container returns `none` and leaves the
container unchanged (hence is safely callable repeatedly); on a
non-empty container it decrements the length, returns the occupant of
the new last occupied index, and resets that slot to the default value,
touching nothing else. -/
theorem claim_C4 (v : ToyVec T) (hv : v.inv) :
    (v.len = 0 → v.pop = some (none, v)) ∧
    (0 < v.len → ∃ x w, v.pop = some (some x, w) ∧
      v.elements[v.len - 1]? = some x ∧
      w.len = v.len - 1 ∧
      w.elements[v.len - 1]? = some (default : T) ∧
      (∀ j, j ≠ v.len - 1 → w.elements[j]? = v.elements[j]?) ∧
      w.capacity = v.capacity) := by
  refine ⟨fun h => pop_empty v h, fun h => ?_⟩
  obtain ⟨x, hx, hp⟩ := pop_spec v hv h
  have hlt : v.len - 1 < v.elements.length := by
    have hcap : v.len ≤ v.elements.length := hv
    omega
  refine ⟨x, _, hp, hx, rfl, ?_, ?_, ?_⟩
  · show (v.elements.set (v.len - 1) default)[v.len - 1]? = _
    rw [List.getElem?_set, if_pos rfl, if_pos hlt]
  · intro j hj
    show (v.elements.set (v.len - 1) default)[j]? = _
    rw [List.getElem?_set_ne (fun hh => hj hh.symm)]
  · show (v.elements.set (v.len - 1) default).length = v.elements.length
    rw [List.length_set]

theorem claim_C4_witness :
    ∃ x w, (⟨[5, 7], 2⟩ : ToyVec Nat).pop = some (some x, w) ∧
      (⟨[5, 7], 2⟩ : ToyVec Nat).elements[1]? = some x ∧
      w.len = 1 ∧
      w.elements[1]? = some (default : Nat) ∧
      (∀ j, j ≠ 1 → w.elements[j]? = (⟨[5, 7], 2⟩ : ToyVec Nat).elements[j]?) ∧
      w.capacity = (⟨[5, 7], 2⟩ : ToyVec Nat).capacity :=
  (claim_C4 ⟨[5, 7], 2⟩ (by decide)).2 (by decide)

/-- C5: `push x` then `pop` returns `some x`, restores the length, and
leaves every remaining element's value and position unchanged. -/
theorem claim_C5 (v : ToyVec T) (hv : v.inv) (x : T) :
    ∃ v1 v2, v.push x = some v1 ∧ v1.pop = some (some x, v2) ∧
      v2.len = v.len ∧
      ∀ j, j < v.len → v2.elements[j]? = v.elements[j]? := by
  obtain ⟨v1, h1, h1len, h1inv, h1keep, h1new⟩ := push_spec v hv x
  obtain ⟨y, hy, hp⟩ := pop_spec v1 h1inv (by omega)
  have hidx : v1.len - 1 = v.len := by omega
  rw [hidx] at hy hp
  rw [h1new, Option.some.injEq] at hy
  subst hy
  refine ⟨v1, ⟨v1.elements.set v.len default, v.len⟩, h1, hp, rfl, fun j hj => ?_⟩
  show (v1.elements.set v.len default)[j]? = _
  rw [List.getElem?_set_ne (by omega : v.len ≠ j), h1keep j hj]

theorem claim_C5_witness :
    ∃ v1 v2, (⟨[3, 0], 1⟩ : ToyVec Nat).push 9 = some v1 ∧
      v1.pop = some (some 9, v2) ∧
      v2.len = 1 ∧
      ∀ j, j < 1 → v2.elements[j]? = (⟨[3, 0], 1⟩ : ToyVec Nat).elements[j]? :=
  claim_C5 ⟨[3, 0], 1⟩ (by decide) 9

/-- C6: `get index` returns an element exactly when `index < length`
and an explicit `none` otherwise — in particular `get 0` on a fresh
empty container — and `get_or` returns `get index` when present and the
supplied default otherwise, all without panicking. -/
theorem claim_C6 (v : ToyVec T) (hv : v.inv) (index : Nat) (dflt : T) :
    (index < v.len → ∃ x, v.elements[index]? = some x ∧ v.get index = some (some x)) ∧
    (v.len ≤ index → v.get index = some none) ∧
    (ToyVec.new T).get 0 = some none ∧
    (∀ x, v.get index = some (some x) → v.get_or index dflt = some x) ∧
    (v.get index = some none → v.get_or index dflt = some dflt) := by
  refine ⟨fun h => ?_, fun h => ?_, rfl, fun x hx => ?_, fun hx => ?_⟩
  · have hlt : index < v.elements.length := by
      have hcap : v.len ≤ v.elements.length := hv
      omega
    refine ⟨v.elements[index], List.getElem?_eq_getElem hlt, ?_⟩
    rw [ToyVec.get, if_pos h, getSlot, List.getElem?_eq_getElem hlt]
    rfl
  · rw [ToyVec.get, if_neg (by omega)]
  · rw [ToyVec.get_or, hx]
    rfl
  · rw [ToyVec.get_or, hx]
    rfl

theorem claim_C6_witness :
    ∃ x, (⟨[4, 9, 0], 2⟩ : ToyVec Nat).elements[1]? = some x ∧
      (⟨[4, 9, 0], 2⟩ : ToyVec Nat).get 1 = some (some x) :=
  (claim_C6 ⟨[4, 9, 0], 2⟩ (by decide) 1 5).1 (by decide)

/-- C7: a cursor over a container built by appends captures the length
at creation; while the position is below that length, `next` yields the
element at the position (the k-th appended value) and advances by one;
once the position reaches the captured length, `next` returns `none`
and leaves the cursor state unchanged, forever. -/
theorem claim_C7 (xs : List T) (v : ToyVec T)
    (hpush : pushList (ToyVec.new T) xs = some v) (k : Nat) :
    (k < xs.length →
      ((Iter.create v).nextN k).next = (xs[k]?, (Iter.create v).nextN (k + 1)) ∧
      (xs[k]?).isSome = true) ∧
    (xs.length ≤ k →
      ((Iter.create v).nextN k).next = (none, (Iter.create v).nextN k)) := by
  obtain ⟨w, hw, hwlen, _, _, hwnew⟩ := pushList_spec xs (ToyVec.new T) new_inv
  rw [hpush, Option.some.injEq] at hw
  rw [hw]
  have hvlen : w.len = xs.length := by rw [hwlen, new_len, Nat.zero_add]
  refine ⟨fun hk => ⟨?_, ?_⟩, fun hk => ?_⟩
  · rw [create_nextN w k, create_nextN w (k + 1),
      show min k w.len = k by omega, show min (k + 1) w.len = k + 1 by omega]
    simp only [Iter.next]
    rw [if_pos (show k < w.len by omega)]
    have hg := hwnew k hk
    rw [new_len, Nat.zero_add] at hg
    rw [hg]
  · rw [List.getElem?_eq_getElem hk]
    rfl
  · rw [create_nextN w k, show min k w.len = w.len by omega]
    simp only [Iter.next]
    rw [if_neg (by omega : ¬w.len < w.len)]

theorem claim_C7_witness :
    ((Iter.create (⟨[10, 20, 30, 0], 3⟩ : ToyVec Nat)).nextN 1).next =
      (([10, 20, 30] : List Nat)[1]?,
        (Iter.create (⟨[10, 20, 30, 0], 3⟩ : ToyVec Nat)).nextN 2) ∧
    (([10, 20, 30] : List Nat)[1]?).isSome = true :=
  (claim_C7 [10, 20, 30] ⟨[10, 20, 30, 0], 3⟩ (by decide) 1).1 (by decide)

/-- C8: `new` has capacity 0 and length 0; `with_capacity n` has
capacity exactly `n`, length 0, and every one of its `n` slots holds the
default value. -/
theorem claim_C8 (n : Nat) :
    (ToyVec.new T).capacity = 0 ∧ (ToyVec.new T).len = 0 ∧
    (ToyVec.with_capacity T n).capacity = n ∧
    (ToyVec.with_capacity T n).len = 0 ∧
    ∀ i, i < n → (ToyVec.with_capacity T n).elements[i]? = some (default : T) :=
  ⟨new_capacity, new_len, with_capacity_capacity n, with_capacity_len n,
    fun i hi => allocate_getElem n i hi⟩

theorem claim_C8_witness :
    (ToyVec.with_capacity Nat 2).elements[1]? = some (default : Nat) :=
  (claim_C8 (T := Nat) 2).2.2.2.2 1 (by decide)

/-- C9: `pop` never changes the capacity (the storage block is written
in place, never replaced); only `push` can reallocate.  The read-only
operations `get`, `get_or`, `len` and `capacity` are embedded as pure
functions of the container and return no modified state at all. -/
theorem claim_C9 (v : ToyVec T) (r : Option T) (w : ToyVec T)
    (hpop : v.pop = some (r, w)) : w.capacity = v.capacity := by
  rw [ToyVec.pop] at hpop
  split at hpop
  · rw [Option.some.injEq, Prod.mk.injEq] at hpop
    rw [← hpop.2]
  · rw [getSlot] at hpop
    cases hx : v.elements[v.len - 1]? with
    | none =>
      rw [hx, Option.none_bind] at hpop
      exact absurd hpop (by simp)
    | some x =>
      rw [hx, Option.some_bind, setSlot] at hpop
      split at hpop
      · rw [Option.map_some', Option.some.injEq, Prod.mk.injEq] at hpop
        rw [← hpop.2]
        show (v.elements.set (v.len - 1) default).length = v.elements.length
        rw [List.length_set]
      · rw [Option.map_none'] at hpop
        exact absurd hpop (by simp)

theorem claim_C9_witness :
    (⟨[0], 0⟩ : ToyVec Nat).capacity = (⟨[5], 1⟩ : ToyVec Nat).capacity :=
  claim_C9 ⟨[5], 1⟩ (some 5) ⟨[0], 0⟩ (by decide)

/-- C10: under the invariant `length ≤ capacity`, no operation ever
takes the out-of-bounds panic branch of slot indexing: `grow`, `push`,
`pop` and `get` all return `some`. -/
theorem claim_C10 (v : ToyVec T) (hv : v.inv) (x : T) (i : Nat) :
    (v.grow).isSome = true ∧ (v.push x).isSome = true ∧
    (v.pop).isSome = true ∧ (v.get i).isSome = true := by
  obtain ⟨g, hg, _, _, _⟩ := grow_spec v
  obtain ⟨p, hp, _, _, _, _⟩ := push_spec v hv x
  refine ⟨by rw [hg]; rfl, by rw [hp]; rfl, ?_, ?_⟩
  · by_cases h : v.len = 0
    · rw [pop_empty v h]
      rfl
    · obtain ⟨y, _, hpp⟩ := pop_spec v hv (by omega)
      rw [hpp]
      rfl
  · by_cases h : i < v.len
    · have hlt : i < v.elements.length := by
        have hcap : v.len ≤ v.elements.length := hv
        omega
      rw [ToyVec.get, if_pos h, getSlot, List.getElem?_eq_getElem hlt]
      rfl
    · rw [ToyVec.get, if_neg h]
      rfl

theorem claim_C10_witness :
    ((⟨[1, 2], 1⟩ : ToyVec Nat).grow).isSome = true ∧
    ((⟨[1, 2], 1⟩ : ToyVec Nat).push 3).isSome = true ∧
    ((⟨[1, 2], 1⟩ : ToyVec Nat).pop).isSome = true ∧
    ((⟨[1, 2], 1⟩ : ToyVec Nat).get 0).isSome = true :=
  claim_C10 ⟨[1, 2], 1⟩ (by decide) 3 0

end ToyVecSpec
